import Mathlib

/-!
Verification of the logarithmic scale component (`src/scale/Log.ts`).

Shallow embedding of the `LogScale` class over exact real numbers:
JavaScript `number` values are modelled as `ℝ`.  The generic `Scale`
base's default extent `[Infinity, -Infinity]` (the identity element for
extent widening) is modelled as an unset extent (`Option.none`).

The sibling modules (`Scale`, `IntervalScale`, the numeric utilities,
the scale helper and the tabular data accessor) are external boundary
collaborators whose sources are not part of this repository; each of
their primitives used by `LogScale` is modelled from the specification's
description of its observable contract and marked `Modelled from the
spec` in its doc comment.
-/

noncomputable section

namespace EchartsLogScale

/-- Modelled from the spec: `numberUtil.round(value, precision)` of the
external numeric utilities, rounding a value to `p` decimal places (the
floating-point drift correction is exact over `ℝ`). -/
def roundTo (x : ℝ) (p : ℕ) : ℝ :=
  ((round (x * 10 ^ p) : ℤ) : ℝ) / 10 ^ p

open Classical in
/-- Modelled from the spec: `numberUtil.getPrecision(value)` of the external
numeric utilities, the number of decimal places of a value: the least `p`
such that the value has an exact `p`-decimal representation (`0` when no
finite decimal representation exists). -/
def getPrecision (x : ℝ) : ℕ :=
  if h : ∃ p, roundTo x p = x then Nat.find h else 0

/-- Modelled from the spec: the base-10 order of magnitude of a span, the
exponent underlying `numberUtil.quantity` (`0` at `0`). -/
def quantityExponent (x : ℝ) : ℤ :=
  if x = 0 then 0 else ⌊Real.logb 10 x⌋

/-- Modelled from the spec: `numberUtil.quantity(span)` of the external
numeric utilities, the order-of-magnitude step for a numeric span: the
power of ten at the span's magnitude.  The spec's 1/2/5 leading-digit
coefficient table is owned by the external utility; the step modelled
here carries leading digit 1. -/
def quantity (x : ℝ) : ℝ :=
  (10 : ℝ) ^ quantityExponent x

/-- Modelled from the spec: the scale-helper's `contain(value, extent)`,
the inclusive range test. -/
def helperContain (val : ℝ) (extent : ℝ × ℝ) : Prop :=
  extent.1 ≤ val ∧ val ≤ extent.2

/-- Modelled from the spec: the scale-helper's `normalize(value, extent)`,
linear interpolation of `value` into `[0, 1]` over `extent`. -/
def helperNormalize (val : ℝ) (extent : ℝ × ℝ) : ℝ :=
  (val - extent.1) / (extent.2 - extent.1)

/-- Modelled from the spec: the scale-helper's `scale(normalizedValue,
extent)`, the inverse linear interpolation from `[0, 1]` back onto
`extent`. -/
def helperScale (val : ℝ) (extent : ℝ × ℝ) : ℝ :=
  val * (extent.2 - extent.1) + extent.1

/-- Modelled from the spec: the generic `Scale` base's pair-widen primitive
(`Scale.prototype.unionExtent`): elementwise minimum of the minimums and
maximum of the maximums, widening and never narrowing.  The default extent
`[Infinity, -Infinity]` is the identity for widening and is modelled as
`none`. -/
def unionPair : Option (ℝ × ℝ) → ℝ × ℝ → Option (ℝ × ℝ)
  | none, p => some p
  | some (a, b), p => some (min a p.1, max b p.2)

/-- The clamp-then-log transform applied independently to each boundary by
`setExtent` and `unionExtent` (Log.ts lines 89-108 and 124-145): a value
`≤ 0` becomes the log-space sentinel `0`; a positive value becomes
`log v / log base`. -/
def logTransform (base v : ℝ) : ℝ :=
  if v ≤ 0 then 0 else Real.log v / Real.log base

/-- The `LogScale` instance state (Log.ts lines 42-54).  `extent` is the
inherited `_extent` storage, held in log space; `originalExtent` is the
owned `_originalScale`'s linear-space extent, the only state of that
interval scale observable through the code paths here.  `none` models an
extent still at its `[Infinity, -Infinity]` default. -/
structure LogScale where
  base : ℝ
  extent : Option (ℝ × ℝ)
  originalExtent : Option (ℝ × ℝ)
  fixMin : Bool
  fixMax : Bool
  interval : ℝ
  niceExtent : Option (ℝ × ℝ)

/-- A freshly constructed `LogScale`: default base 10, both extents unset,
`fixMin`/`fixMax` not yet assigned (TS `undefined`, falsy), interval 0 and
`niceExtent` not yet computed. -/
def LogScale.init : LogScale :=
  { base := 10, extent := none, originalExtent := none,
    fixMin := false, fixMax := false, interval := 0, niceExtent := none }

/-- The helper `fixRoundingError` (Log.ts lines 239-241): round `val` to
the decimal precision of `originalVal`. -/
def fixRoundingError (val originalVal : ℝ) : ℝ :=
  roundTo val (getPrecision originalVal)

/-- Source `LogScale.setExtent` (Log.ts lines 89-108): clamp-then-log each
boundary and store the resulting pair as given (the delegated
`IntervalScale.setExtent` is modelled from the spec: it simply stores the
pair, performing no reordering or validation). -/
def LogScale.setExtent (s : LogScale) (start stop : ℝ) : LogScale :=
  { s with extent := some (logTransform s.base start, logTransform s.base stop) }

/-- Source `LogScale.getExtent` (Log.ts lines 110-122): exponentiate each
stored log-space boundary (`base ^ v`), then, when `fixMin`/`fixMax` are
set, round the corresponding boundary to the decimal precision of
`_originalScale`'s boundary.  The precision fix is modelled only for a set
original extent (an unset original boundary is infinite and carries no
decimal precision).  On the unset default extent the source would report
`[base ^ Infinity, base ^ -Infinity]`; that corner is not representable
over `ℝ` and is mapped to junk `(0, 0)`, unused by the theorems below. -/
def LogScale.getExtent (s : LogScale) : ℝ × ℝ :=
  match s.extent with
  | none => (0, 0)
  | some (e0, e1) =>
    let l0 := s.base ^ e0
    let l1 := s.base ^ e1
    let l0 := if s.fixMin = true then
        (match s.originalExtent with
         | some o => fixRoundingError l0 o.1
         | none => l0)
      else l0
    let l1 := if s.fixMax = true then
        (match s.originalExtent with
         | some o => fixRoundingError l1 o.2
         | none => l1)
      else l1
    (l0, l1)

/-- Source `LogScale.unionExtent` (Log.ts lines 124-145), with the in-place
mutation of the argument pair made explicit: first widen `_originalScale`'s
linear extent by the untransformed pair (line 125), then overwrite each
boundary of the argument pair with its clamp-then-log image (lines
130-142), then widen the log-space `_extent` by the transformed pair (line
144).  Returns the new state together with the final contents of the
caller's pair. -/
def LogScale.unionExtentFull (s : LogScale) (e : ℝ × ℝ) : LogScale × (ℝ × ℝ) :=
  let s1 := { s with originalExtent := unionPair s.originalExtent e }
  let t := (logTransform s.base e.1, logTransform s.base e.2)
  ({ s1 with extent := unionPair s1.extent t }, t)

/-- Source `LogScale.unionExtent`, state component. -/
def LogScale.unionExtent (s : LogScale) (e : ℝ × ℝ) : LogScale :=
  (s.unionExtentFull e).1

/-- Source `LogScale.unionExtentFromData` (Log.ts lines 147-160).  The
tabular data accessor's `getApproximateExtent(dim)` result is modelled
from the spec as the reported pair `approx`; each boundary `≤ 0` is
clamped to exactly `0` before delegating to `unionExtent`. -/
def LogScale.unionExtentFromData (s : LogScale) (approx : ℝ × ℝ) : LogScale :=
  let e := (if approx.1 ≤ 0 then 0 else approx.1,
            if approx.2 ≤ 0 then 0 else approx.2)
  s.unionExtent e

/-- The tick interval seeded by `calcNiceTicks` before its growth loop
(Log.ts lines 170-175): start from `quantity(span)` and coarsen by 10
when `err = approxTickNum / span * interval` is at most `0.5`. -/
def seededInterval (approxTickNum span : ℝ) : ℝ :=
  let interval := quantity span
  let err := approxTickNum / span * interval
  if err ≤ 0.5 then interval * 10 else interval

/-- The guard of the interval-growth loop (Log.ts line 177); over exact
reals the `isNaN` disjunct cannot fire, leaving `0 < |interval| < 1`. -/
def loopGuard (interval : ℝ) : Prop :=
  0 < |interval| ∧ |interval| < 1

instance loopGuardDecidable : DecidablePred loopGuard := fun i =>
  inferInstanceAs (Decidable (0 < |i| ∧ |i| < 1))

/-- The interval-growth `while` loop of `calcNiceTicks` (Log.ts lines
177-179): multiply the interval by 10 while its magnitude lies strictly
between 0 and 1. -/
def growInterval (i : ℝ) : ℝ :=
  if h : loopGuard i then growInterval (i * 10) else i
termination_by (⌈-Real.logb 10 |i|⌉).toNat
decreasing_by
  obtain ⟨h0, h1⟩ := h
  have hi : i ≠ 0 := abs_ne_zero.mp (ne_of_gt h0)
  have hlog : Real.logb 10 |i * 10| = Real.logb 10 |i| + 1 := by
    rw [abs_mul, abs_of_nonneg (by norm_num : (0:ℝ) ≤ 10),
      Real.logb_mul (abs_ne_zero.mpr hi) (by norm_num),
      Real.logb_self_eq_one (by norm_num)]
  have hcast : -(Real.logb 10 |i| + 1) = -Real.logb 10 |i| - ((1 : ℤ) : ℝ) := by
    push_cast; ring
  have hceil : ⌈-Real.logb 10 |i * 10|⌉ = ⌈-Real.logb 10 |i|⌉ - 1 := by
    rw [hlog, hcast, Int.ceil_sub_int]
  have hpos : 0 < ⌈-Real.logb 10 |i|⌉ := by
    apply Int.ceil_pos.mpr
    have := Real.logb_neg (by norm_num : (1:ℝ) < 10) h0 h1
    linarith
  rw [hceil]
  exact (Int.toNat_lt_toNat hpos).mpr (by omega)

/-- Source `LogScale.calcNiceTicks` (Log.ts lines 162-188).  A falsy tick
count defaults to 10.  The unset default extent has span `-Infinity`,
caught by the source's `span ≤ 0` guard and modelled by the `none` branch;
a span of exactly `+Infinity` would require an infinite stored boundary,
which no operation with real-valued inputs produces, so over `ℝ` the
source guard `span === Infinity || span <= 0` reduces to `span ≤ 0`. -/
def LogScale.calcNiceTicks (approxTickNum : ℝ) (s : LogScale) : LogScale :=
  let n := if approxTickNum = 0 then 10 else approxTickNum
  match s.extent with
  | none => s
  | some (e0, e1) =>
    let span := e1 - e0
    if span ≤ 0 then s
    else
      let interval := growInterval (seededInterval n span)
      let niceExtent := (roundTo ((⌈e0 / interval⌉ : ℝ) * interval) 10,
                         roundTo ((⌊e1 / interval⌋ : ℝ) * interval) 10)
      { s with interval := interval, niceExtent := some niceExtent }

/-- The per-tick mapping of `getTicks` (Log.ts lines 66-80): exponentiate
the log-space tick value, apply the delegated `numberUtil.round`
default-precision drift correction (modelled at 10 decimal places), and
apply the boundary precision fixes when the tick value equals a boundary
of the log-space extent `(e0, e1)` and the corresponding fix flag is set. -/
def LogScale.tickMap (s : LogScale) (e0 e1 : ℝ) (ticks : List ℝ) : List ℝ :=
  ticks.map fun v =>
    let powVal := roundTo (s.base ^ v) 10
    let powVal := if v = e0 ∧ s.fixMin = true then
        (match s.originalExtent with
         | some o => fixRoundingError powVal o.1
         | none => powVal)
      else powVal
    let powVal := if v = e1 ∧ s.fixMax = true then
        (match s.originalExtent with
         | some o => fixRoundingError powVal o.2
         | none => powVal)
      else powVal
    powVal

/-- Source `LogScale.getTicks` (Log.ts lines 56-87).  The delegated
`IntervalScale.prototype.getTicks` tick-generation algorithm is an
external collaborator; modelled from the spec, its output - a sequence of
log-space tick positions - is taken as the parameter `delegated`.  A
synthetic zero tick is prepended exactly when the log-space extent minimum
is `≤ 0`.  On the unset default extent (`[Infinity, -Infinity]`) neither
the boundary comparisons nor the zero-injection test can fire. -/
def LogScale.getTicks (delegated : List ℝ) (s : LogScale) : List ℝ :=
  match s.extent with
  | none => delegated.map fun v => roundTo (s.base ^ v) 10
  | some (e0, e1) =>
    if e0 ≤ 0 then 0 :: s.tickMap e0 e1 delegated
    else s.tickMap e0 e1 delegated

/-- Source `LogScale.parse` (Log.ts lines 203-205): the identity. -/
def LogScale.parse (val : ℝ) : ℝ :=
  val

/-- Source `LogScale.contain` (Log.ts lines 207-213): `false` for every
non-positive value; otherwise the inclusive helper containment of
`log val / log base` in the log-space extent (`false` against the unset
default extent `[Infinity, -Infinity]`, which contains nothing). -/
def LogScale.contain (s : LogScale) (val : ℝ) : Prop :=
  if val ≤ 0 then False
  else
    match s.extent with
    | none => False
    | some e => helperContain (Real.log val / Real.log s.base) e

/-- Source `LogScale.normalize` (Log.ts lines 215-221): a non-positive
value is substituted with the fallback `0.01`, then transformed to log
space and interpolated over the log-space extent (junk `0` on the unset
default extent, where the source would produce `NaN`; unused by the
theorems below). -/
def LogScale.normalize (s : LogScale) (val : ℝ) : ℝ :=
  let v := if val ≤ 0 then 0.01 else val
  let lv := Real.log v / Real.log s.base
  match s.extent with
  | none => 0
  | some e => helperNormalize lv e

/-- Source `LogScale.scale` (Log.ts lines 223-229): a non-positive
normalized position is substituted with the fallback `0.01`, mapped back
to a log-space value over the extent, then exponentiated (junk on the
unset default extent as in `normalize`). -/
def LogScale.scale (s : LogScale) (val : ℝ) : ℝ :=
  let v := if val ≤ 0 then 0.01 else val
  let sv := match s.extent with
            | none => 0
            | some e => helperScale v e
  s.base ^ sv

/-! ## Shared computation lemmas -/

lemma logTransform_of_nonpos {b v : ℝ} (h : v ≤ 0) : logTransform b v = 0 :=
  if_pos h

lemma logTransform_of_pos {b v : ℝ} (h : 0 < v) :
    logTransform b v = Real.log v / Real.log b :=
  if_neg (not_le.mpr h)

lemma getPrecision_spec {x : ℝ} (h : ∃ p, roundTo x p = x) :
    roundTo x (getPrecision x) = x := by
  unfold getPrecision
  rw [dif_pos h]
  exact Nat.find_spec h

lemma getPrecision_eq_zero {x : ℝ} (h : roundTo x 0 = x) : getPrecision x = 0 := by
  unfold getPrecision
  rw [dif_pos ⟨0, h⟩]
  exact (Nat.find_eq_zero ⟨0, h⟩).mpr h

/-! ## Claims -/

/-- C5: for every `LogScale` state, `unionExtentFromData` with a data
accessor reporting range `[-10, 50]` produces exactly the state produced by
`unionExtent([0, 50])`: the clamp of non-positive boundaries to `0` happens
before delegation. -/
theorem unionExtentFromData_eq_unionExtent_clamped (s : LogScale) :
    s.unionExtentFromData (-10, 50) = s.unionExtent (0, 50) := by
  unfold LogScale.unionExtentFromData
  norm_num

/-- C10: `unionExtent` mutates its argument pair in place: afterwards the
caller's pair holds the log-space images of the boundaries (`0` for a
boundary `≤ 0`, `log v / log base` otherwise), while `_originalScale`'s
extent was widened by the untransformed pair. -/
theorem unionExtent_mutates_argument_to_log_images (s : LogScale) (e : ℝ × ℝ) :
    (s.unionExtentFull e).2 =
      ((if e.1 ≤ 0 then 0 else Real.log e.1 / Real.log s.base),
       (if e.2 ≤ 0 then 0 else Real.log e.2 / Real.log s.base)) ∧
    (s.unionExtentFull e).1.originalExtent = unionPair s.originalExtent e := by
  exact ⟨rfl, rfl⟩

/-- C4: `calcNiceTicks` is a no-op (retaining the stored `interval` and
`niceExtent`) whenever the log-space span is degenerate: the extent is
still unset (source span `-Infinity`) or its span is `≤ 0`. -/
theorem calcNiceTicks_noop_on_degenerate_span (s : LogScale) (n : ℝ)
    (h : s.extent = none ∨ ∃ e0 e1, s.extent = some (e0, e1) ∧ e1 - e0 ≤ 0) :
    (s.calcNiceTicks n).interval = s.interval ∧
    (s.calcNiceTicks n).niceExtent = s.niceExtent := by
  rcases h with h | ⟨e0, e1, he, hspan⟩
  · simp [LogScale.calcNiceTicks, h]
  · simp [LogScale.calcNiceTicks, he, hspan]

/-- A state with a set extent of non-positive span and non-trivial stored
tick state, exercising the `calcNiceTicks` guard. -/
def degenerateState : LogScale :=
  { base := 10, extent := some (2, 1), originalExtent := none,
    fixMin := false, fixMax := false, interval := 5, niceExtent := some (3, 4) }

theorem calcNiceTicks_noop_witness :
    (degenerateState.calcNiceTicks 10).interval = degenerateState.interval ∧
    (degenerateState.calcNiceTicks 10).niceExtent = degenerateState.niceExtent :=
  calcNiceTicks_noop_on_degenerate_span degenerateState 10
    (Or.inr ⟨2, 1, rfl, by norm_num⟩)

/-- C1 (counterexample): on a fresh `LogScale` (default base 10, default
flags), `unionExtent([-5, 100])` followed by `getExtent()` does NOT report a
minimum of 0: the log-space sentinel 0 is exponentiated on the way out. -/
theorem unionExtent_then_getExtent_min_ne_zero :
    (LogScale.getExtent (LogScale.unionExtent LogScale.init (-5, 100))).1 ≠ 0 := by
  have h : (LogScale.getExtent (LogScale.unionExtent LogScale.init (-5, 100))).1
      = (10:ℝ) ^ (0:ℝ) := by
    norm_num [LogScale.unionExtent, LogScale.unionExtentFull, LogScale.init,
      unionPair, LogScale.getExtent, logTransform]
  rw [h, Real.rpow_zero]
  norm_num

/-- C1 (amended): on a fresh `LogScale` with default base 10 and default
flags, `unionExtent([-5, 100])` followed by `getExtent()` reports a minimum
of exactly 1: the negative boundary is clamped to the log-space sentinel 0
on the way in, and `getExtent` exponentiates that sentinel (`10 ^ 0 = 1`)
on the way out. -/
theorem unionExtent_then_getExtent_min_eq_one :
    (LogScale.getExtent (LogScale.unionExtent LogScale.init (-5, 100))).1 = 1 := by
  have h : (LogScale.getExtent (LogScale.unionExtent LogScale.init (-5, 100))).1
      = (10:ℝ) ^ (0:ℝ) := by
    norm_num [LogScale.unionExtent, LogScale.unionExtentFull, LogScale.init,
      unionPair, LogScale.getExtent, logTransform]
  rw [h, Real.rpow_zero]

/-- A state whose log-space extent is `(-1, 2)` - linear range
`[0.1, 100]` - with default flags. -/
def zeroTickState : LogScale :=
  { base := 10, extent := some (-1, 2), originalExtent := none,
    fixMin := false, fixMax := false, interval := 0, niceExtent := none }

/-- C2 (counterexample): a `LogScale` whose linear extent minimum reported
by `getExtent` is strictly positive (`10 ^ -1 = 0.1`) still gets a
synthetic zero tick injected at the front, because the injection tests the
log-space extent minimum, not the linear one. -/
theorem getTicks_zero_injected_with_positive_linear_min :
    0 < (zeroTickState.getExtent).1 ∧ zeroTickState.getTicks [] = [0] := by
  constructor
  · have h : (zeroTickState.getExtent).1 = (10:ℝ) ^ (-1:ℝ) := by
      norm_num [LogScale.getExtent, zeroTickState]
    rw [h]
    exact Real.rpow_pos_of_pos (by norm_num) _
  · norm_num [LogScale.getTicks, zeroTickState, LogScale.tickMap]

/-- C2 (amended): `getTicks` prepends a synthetic tick with value exactly 0
as the first element if and only if the stored log-space extent's minimum is
`≤ 0` (equivalently, for base `> 1` with the precision fixes off, iff the
linear minimum `getExtent` reports is at most `base ^ 0 = 1`); the condition
is not the linear minimum being `≤ 0`. -/
theorem getTicks_zero_injected_iff_log_min_nonpos (d : List ℝ) (s : LogScale)
    (e0 e1 : ℝ) (he : s.extent = some (e0, e1)) :
    s.getTicks d = 0 :: s.tickMap e0 e1 d ↔ e0 ≤ 0 := by
  constructor
  · intro h
    by_contra hne
    simp only [LogScale.getTicks, he, if_neg hne] at h
    have hlen := congrArg List.length h
    simp [LogScale.tickMap] at hlen
  · intro h
    simp only [LogScale.getTicks, he, if_pos h]

theorem getTicks_zero_injected_iff_witness :
    zeroTickState.getTicks [1] = 0 :: zeroTickState.tickMap (-1) 2 [1] :=
  (getTicks_zero_injected_iff_log_min_nonpos [1] zeroTickState (-1) 2 rfl).mpr
    (by norm_num)

/-- C6: `contain` returns false for every value `≤ 0` on every state, and
returns true for every positive value whose log-space image
`log x / log base` lies strictly inside the current log-space extent. -/
theorem contain_rejects_nonpos_and_accepts_strict_interior (s : LogScale) (v : ℝ) :
    (v ≤ 0 → ¬ s.contain v) ∧
    (∀ e0 e1, s.extent = some (e0, e1) → 0 < v →
      e0 < Real.log v / Real.log s.base → Real.log v / Real.log s.base < e1 →
      s.contain v) := by
  constructor
  · intro hv hc
    rw [LogScale.contain, if_pos hv] at hc
    exact hc
  · intro e0 e1 he hv h1 h2
    rw [LogScale.contain, if_neg (not_le.mpr hv), he]
    exact ⟨le_of_lt h1, le_of_lt h2⟩

/-- A state with log-space extent `(0, 2)` (linear `[1, 100]`), base 10,
default flags; used to exercise containment, the normalize/scale round
trip and monotonicity at concrete inputs. -/
def unitHundredState : LogScale :=
  { base := 10, extent := some (0, 2), originalExtent := none,
    fixMin := false, fixMax := false, interval := 0, niceExtent := none }

theorem contain_witness :
    ¬ unitHundredState.contain (-3) ∧ unitHundredState.contain 10 := by
  have hlog : Real.log 10 / Real.log (10:ℝ) = 1 :=
    div_self (ne_of_gt (Real.log_pos (by norm_num)))
  exact ⟨(contain_rejects_nonpos_and_accepts_strict_interior unitHundredState (-3)).1
      (by norm_num),
    (contain_rejects_nonpos_and_accepts_strict_interior unitHundredState 10).2 0 2
      rfl (by norm_num) (by rw [show unitHundredState.base = (10:ℝ) from rfl, hlog]; norm_num)
      (by rw [show unitHundredState.base = (10:ℝ) from rfl, hlog]; norm_num)⟩

/-- C3 (counterexample): with base 10 and log-space extent `(0, 2)` (set
from linear `[1, 100]`), the round trip `scale(normalize(v))` fails at the
extent's minimum boundary `v = 1`: `normalize(1) = 0`, and `scale`
substitutes its non-positive input with `0.01`, yielding `10 ^ 0.02 ≠ 1`. -/
theorem scale_normalize_fails_at_min_boundary :
    unitHundredState.scale (unitHundredState.normalize 1) ≠ 1 := by
  have hnorm : unitHundredState.normalize 1 = 0 := by
    norm_num [LogScale.normalize, unitHundredState, helperNormalize, Real.log_one]
  rw [hnorm]
  have hscale : unitHundredState.scale 0 = (10:ℝ) ^ ((1:ℝ)/50) := by
    rw [LogScale.scale]
    norm_num [unitHundredState, helperScale]
  rw [hscale]
  have h1 : 1 < (10:ℝ) ^ ((1:ℝ)/50) := by
    rw [Real.one_lt_rpow_iff_of_pos (by norm_num)]
    left
    constructor <;> norm_num
  exact ne_of_gt h1

/-- C3 (amended): for base `> 1` and a valid extent, `scale(normalize(v))`
recovers any positive `v` exactly (over exact reals) whenever `v` lies
strictly above the extent's minimum boundary in log space; at the minimum
boundary itself the substitution of non-positive normalized positions with
`0.01` breaks the round trip. -/
theorem scale_normalize_roundtrip_above_min (s : LogScale) (e0 e1 v : ℝ)
    (he : s.extent = some (e0, e1)) (hb : 1 < s.base) (hee : e0 < e1)
    (hv : 0 < v) (hmin : e0 < Real.log v / Real.log s.base) :
    s.scale (s.normalize v) = v := by
  have hb0 : (0:ℝ) < s.base := lt_trans zero_lt_one hb
  have hb1 : s.base ≠ 1 := ne_of_gt hb
  have hne : e1 - e0 ≠ 0 := ne_of_gt (by linarith)
  have hnorm : s.normalize v =
      (Real.log v / Real.log s.base - e0) / (e1 - e0) := by
    rw [LogScale.normalize, if_neg (not_le.mpr hv), he]
    rfl
  have hpos : 0 < (Real.log v / Real.log s.base - e0) / (e1 - e0) :=
    div_pos (by linarith) (by linarith)
  have harg : helperScale ((Real.log v / Real.log s.base - e0) / (e1 - e0)) (e0, e1)
      = Real.log v / Real.log s.base := by
    rw [helperScale]
    field_simp
  rw [hnorm, LogScale.scale, if_neg (not_le.mpr hpos), he]
  show s.base ^ helperScale ((Real.log v / Real.log s.base - e0) / (e1 - e0)) (e0, e1) = v
  rw [harg, Real.log_div_log]
  exact Real.rpow_logb hb0 hb1 hv

theorem scale_normalize_roundtrip_witness :
    unitHundredState.scale (unitHundredState.normalize 10) = 10 := by
  have hlog : Real.log 10 / Real.log (10:ℝ) = 1 :=
    div_self (ne_of_gt (Real.log_pos (by norm_num)))
  exact scale_normalize_roundtrip_above_min unitHundredState 0 2 10 rfl
    (by norm_num [unitHundredState]) (by norm_num) (by norm_num)
    (by rw [show unitHundredState.base = (10:ℝ) from rfl, hlog]; norm_num)

/-- A state whose `_originalScale` tracks `[3, 100]` (from an earlier data
union) and whose precision fixes are on; `setExtent` does not update the
original scale, so the fixes round against `3`, not against the inputs. -/
def fixedPrecisionState : LogScale :=
  { base := 10, extent := none, originalExtent := some (3, 100),
    fixMin := true, fixMax := true, interval := 0, niceExtent := none }

/-- C8 (counterexample): with `fixMin` set and `_originalScale` tracking a
minimum of `3`, `setExtent(2.5, 100)` followed by `getExtent()` reports a
minimum of `3` — the boundary is rounded to the decimal precision of
`_originalScale`'s minimum (0 decimal places), not to the precision of the
untransformed input `2.5`. -/
theorem setExtent_getExtent_precision_mismatch :
    ((fixedPrecisionState.setExtent (5/2) 100).getExtent).1 = 3 ∧
    (3:ℝ) ≠ 5/2 := by
  constructor
  · have hr : (10:ℝ) ^ (Real.log ((5:ℝ)/2) / Real.log 10) = 5/2 := by
      rw [Real.log_div_log]
      exact Real.rpow_logb (by norm_num) (by norm_num) (by norm_num)
    have hp3 : getPrecision (3:ℝ) = 0 := by
      apply getPrecision_eq_zero
      unfold roundTo
      norm_num [round_eq]
    have h52 : roundTo ((5:ℝ)/2) 0 = 3 := by
      unfold roundTo
      norm_num [round_eq]
    simp only [LogScale.setExtent, LogScale.getExtent, fixedPrecisionState]
    norm_num [logTransform, fixRoundingError, hr, hp3, h52]
  · norm_num

/-- C8 (amended): for strictly positive inputs and base `> 1`, `setExtent`
followed by `getExtent` recovers the pair exactly (over exact reals) when
`fixMin`/`fixMax` are false.  When the fixes are true, each boundary is
instead rounded to the decimal precision of `_originalScale`'s separately
tracked extent — which `setExtent` leaves untouched — so the inputs are
recovered exactly when `_originalScale` already holds those same inputs and
they admit finite decimal representations. -/
theorem setExtent_getExtent_roundtrip (s : LogScale) (u v : ℝ)
    (hb : 1 < s.base) (hu : 0 < u) (hv : 0 < v) :
    (s.fixMin = false → s.fixMax = false →
      (s.setExtent u v).getExtent = (u, v)) ∧
    (s.fixMin = true → s.fixMax = true → s.originalExtent = some (u, v) →
      (∃ p, roundTo u p = u) → (∃ p, roundTo v p = v) →
      (s.setExtent u v).getExtent = (u, v)) := by
  have hb0 : (0:ℝ) < s.base := lt_trans zero_lt_one hb
  have hb1 : s.base ≠ 1 := ne_of_gt hb
  have hru : s.base ^ (Real.log u / Real.log s.base) = u := by
    rw [Real.log_div_log]
    exact Real.rpow_logb hb0 hb1 hu
  have hrv : s.base ^ (Real.log v / Real.log s.base) = v := by
    rw [Real.log_div_log]
    exact Real.rpow_logb hb0 hb1 hv
  constructor
  · intro h1 h2
    simp only [LogScale.setExtent, LogScale.getExtent, h1, h2,
      logTransform_of_pos hu, logTransform_of_pos hv]
    simp [hru, hrv]
  · intro h1 h2 horig hpu hpv
    simp only [LogScale.setExtent, LogScale.getExtent, h1, h2, horig,
      logTransform_of_pos hu, logTransform_of_pos hv]
    simp only [fixRoundingError, hru, hrv, if_pos trivial]
    simp [getPrecision_spec hpu, getPrecision_spec hpv]

theorem setExtent_getExtent_roundtrip_witness :
    (LogScale.init.setExtent 2 100).getExtent = (2, 100) :=
  (setExtent_getExtent_roundtrip LogScale.init 2 100
    (by norm_num [LogScale.init]) (by norm_num) (by norm_num)).1 rfl rfl

/-- C9: for a fixed valid extent (`e0 < e1`) and base `> 1`, `normalize` is
strictly increasing over strictly positive data values and `scale` is
strictly increasing over strictly positive normalized positions. -/
theorem normalize_and_scale_strictly_monotone (s : LogScale) (e0 e1 : ℝ)
    (he : s.extent = some (e0, e1)) (hb : 1 < s.base) (hee : e0 < e1) :
    (∀ x y, 0 < x → x < y → s.normalize x < s.normalize y) ∧
    (∀ x y, 0 < x → x < y → s.scale x < s.scale y) := by
  have hlogb : 0 < Real.log s.base := Real.log_pos hb
  have hspan : 0 < e1 - e0 := by linarith
  constructor
  · intro x y hx hxy
    have hy : 0 < y := lt_trans hx hxy
    have hxn : s.normalize x = (Real.log x / Real.log s.base - e0) / (e1 - e0) := by
      rw [LogScale.normalize, if_neg (not_le.mpr hx), he]
      rfl
    have hyn : s.normalize y = (Real.log y / Real.log s.base - e0) / (e1 - e0) := by
      rw [LogScale.normalize, if_neg (not_le.mpr hy), he]
      rfl
    rw [hxn, hyn, div_lt_div_iff_of_pos_right hspan, sub_lt_sub_iff_right,
      div_lt_div_iff_of_pos_right hlogb]
    exact Real.log_lt_log hx hxy
  · intro x y hx hxy
    have hy : 0 < y := lt_trans hx hxy
    have hxs : s.scale x = s.base ^ (x * (e1 - e0) + e0) := by
      rw [LogScale.scale, if_neg (not_le.mpr hx), he]
      rfl
    have hys : s.scale y = s.base ^ (y * (e1 - e0) + e0) := by
      rw [LogScale.scale, if_neg (not_le.mpr hy), he]
      rfl
    rw [hxs, hys, Real.rpow_lt_rpow_left_iff hb]
    have := mul_lt_mul_of_pos_right hxy hspan
    linarith

theorem normalize_and_scale_monotone_witness :
    unitHundredState.normalize 1 < unitHundredState.normalize 2 ∧
    unitHundredState.scale (1/4) < unitHundredState.scale (1/2) :=
  ⟨(normalize_and_scale_strictly_monotone unitHundredState 0 2 rfl
      (by norm_num [unitHundredState]) (by norm_num)).1 1 2 (by norm_num) (by norm_num),
   (normalize_and_scale_strictly_monotone unitHundredState 0 2 rfl
      (by norm_num [unitHundredState]) (by norm_num)).2 (1/4) (1/2)
      (by norm_num) (by norm_num)⟩

/-- C7 (counterexample): the interval-growth loop of `calcNiceTicks` is
reachable.  For the log-space span `1/2` (with the default tick count 10)
the seeded interval is `quantity(1/2) = 0.1`, the `err = 2 > 0.5`
adjustment does not fire, and `0.1` satisfies the loop guard
`0 < |interval| < 1`, so the loop body executes. -/
theorem growth_loop_guard_reachable : loopGuard (seededInterval 10 (1/2)) := by
  have hfl : ⌊Real.logb 10 ((1:ℝ)/2)⌋ = -1 := by
    rw [Int.floor_eq_iff]
    constructor
    · rw [show (((-1 : ℤ)) : ℝ) = -1 by norm_num,
        Real.le_logb_iff_rpow_le (by norm_num) (by norm_num), Real.rpow_neg_one]
      norm_num
    · have := Real.logb_neg (b := 10) (by norm_num) (by norm_num : (0:ℝ) < 1/2)
        (by norm_num)
      push_cast
      linarith
  have hq : quantity ((1:ℝ)/2) = 1/10 := by
    unfold quantity quantityExponent
    rw [if_neg (by norm_num : ((1:ℝ)/2) ≠ 0), hfl]
    norm_num
  unfold seededInterval loopGuard
  rw [hq]
  norm_num
  rw [abs_of_pos (show (0:ℝ) < 1/10 by norm_num)]
  norm_num

/-- C7 (amended): the "grow interval while magnitude < 1" loop in
`calcNiceTicks` is NOT dead code: spans below 1 can seed a fractional
interval that satisfies the loop guard (for span `1/2` the seed is `0.1`).
For spans `≥ 1`, however, the seeded and err-adjusted interval always has
magnitude `≥ 1` and the loop body never executes. -/
theorem growth_loop_unreachable_for_unit_spans (n span : ℝ) (h : 1 ≤ span) :
    ¬ loopGuard (seededInterval n span) := by
  have hq1 : (1:ℝ) ≤ quantity span := by
    unfold quantity quantityExponent
    rw [if_neg (by positivity : span ≠ 0)]
    exact one_le_zpow₀ (by norm_num)
      (Int.floor_nonneg.mpr (Real.logb_nonneg (by norm_num) h))
  have hseed : (1:ℝ) ≤ seededInterval n span := by
    simp only [seededInterval]
    split_ifs with hc
    · nlinarith
    · exact hq1
  intro hg
  rw [loopGuard, abs_of_nonneg (by linarith)] at hg
  linarith [hg.2]

theorem growth_loop_unreachable_witness : ¬ loopGuard (seededInterval 10 2) :=
  growth_loop_unreachable_for_unit_spans 10 2 (by norm_num)

end EchartsLogScale
